import Mathlib

/-!
Verification development for the ERC1238 token core (mint-authorization and
balance-accounting engine) described in the repository's design document.

The repository's visible code is the test suite `src/test/ERC1238/ERC1238.ts`
and build configuration; the Solidity contracts themselves are not present.
The definitions below are therefore modelled from the specification
(sections 3-7 of the design document), with observable behaviour pinned by
the test suite wherever the tests exercise it (error selection for a zero
recipient in `mintToEOA`, the mock receiver rejecting token id 0, the
concrete URI round-trips).

Accounts, token ids and amounts are modelled as `Nat`; the all-zero account
is `0`.  Balances are 256-bit unsigned integers: a credit that would reach
`2 ^ 256` is a hard error, per the specification ("overflow is a hard
error, not a clamp").  Cryptographic signatures are modelled ideally: a
`Signature` records the account that produced it and the digest it was
produced over, and recovery against any other digest yields the zero
account (the specification's "decode failure ... treated as a verification
failure"); digests are an inductive type, so distinct mint parameters give
distinct digests (collision resistance).  Transaction atomicity follows the
execution substrate described in section 5: a failed entry point aborts the
whole request, so the observable post-state of a failed transaction is the
pre-state (`runTx`).
-/

/-- Modelled from the spec: upper bound of the 256-bit balance type. -/
def U256LIMIT : Nat := 2 ^ 256

/-- Modelled from the spec: the message digests produced by
`SignatureVerifier`.  The hash is "deterministic, collision-resistant ...
with a binding that includes the contract's own ledger identity ... and a
domain separator distinguishing it from other message types"; an inductive
type captures exactly this: two digests are equal iff the ledger identity
and all mint parameters agree, and single- and batch-digests never
collide. -/
inductive Digest where
  | single (ledgerId recipient tokenId amount : Nat)
  | batch (ledgerId recipient : Nat) (ids amounts : List Nat)
deriving DecidableEq

/-- Modelled from the spec: a recoverable signature "(v, r, s) triple ...
over a 32-byte digest", idealized as the account that produced it together
with the digest it signed.  A malformed signature is one whose recorded
signer is the zero account. -/
structure Signature where
  signer : Nat
  signedDigest : Digest
deriving DecidableEq

/-- Modelled from the spec: `digestSingle(recipient, tokenId, amount) -> Digest`,
a pure function of its inputs bound to the ledger identity. -/
def digestSingle (ledgerId recipient tokenId amount : Nat) : Digest :=
  Digest.single ledgerId recipient tokenId amount

/-- Modelled from the spec: `recoverSigner(digest, signature) -> Account`.
Recovery against the digest the signature was produced over yields the
signer; against any other digest it "never raises ... instead yields the
zero account", which callers treat as verification failure. -/
def recoverSigner (digest : Digest) (sig : Signature) : Nat :=
  if sig.signedDigest = digest then sig.signer else 0

/-- Modelled from the spec: `verifyMintApproval(expectedSigner, digest,
signature) -> bool` is "true iff `recoverSigner(digest, signature) ==
expectedSigner` and `expectedSigner != zero`". -/
def verifyMintApproval (expectedSigner : Nat) (digest : Digest) (sig : Signature) : Bool :=
  decide (recoverSigner digest sig = expectedSigner) && decide (expectedSigner ≠ 0)

/-- Modelled from the spec: the failure taxonomy of section 7, plus the
hard error for a credit that would overflow the 256-bit balance type. -/
inductive Err where
  | InvalidRecipient
  | InvalidAccount
  | InvalidMintSignature
  | ReceiverRejected
  | InsufficientBalance
  | LengthMismatch
  | BalanceOverflow
deriving DecidableEq

/-- Modelled from the spec: the emitted events, observable side effects. -/
inductive Event where
  | MintSingle (operator recipient id amount : Nat)
  | MintBatch (operator recipient : Nat) (ids amounts : List Nat)
  | BurnSingle (operator frm id amount : Nat)
  | BurnBatch (operator frm : Nat) (ids amounts : List Nat)
deriving DecidableEq

/-- Modelled from the spec: the ledger state — the contract's own identity
(immutable), the `Account × TokenType → Balance` map owned by
`BalanceLedger`, and the metadata locator (a single mutable string). -/
structure Ledger where
  selfId : Nat
  balances : Nat → Nat → Nat
  baseURI : String

/-- Modelled from the spec: construction deploys the ledger with a base
URI; every balance "is implicitly created (defaulting to zero) on first
reference". -/
def mkERC1238 (selfId : Nat) (uri : String) : Ledger :=
  { selfId := selfId, balances := fun _ _ => 0, baseURI := uri }

/-- Point update of a balance map. -/
def setBal (b : Nat → Nat → Nat) (a t v : Nat) : Nat → Nat → Nat :=
  fun a' t' => if a' = a ∧ t' = t then v else b a' t'

/-- Modelled from the spec: `balanceOf(account, tokenId) -> Balance`, a
pure read that "always succeeds, defaults to zero for unseen pairs". -/
def balanceOf (st : Ledger) (a t : Nat) : Nat :=
  st.balances a t

/-- Modelled from the spec: `credit(account, tokenId, amount)` increases
the stored balance by `amount`; "saturating is not permitted — overflow is
a hard error". -/
def credit (st : Ledger) (a t amount : Nat) : Except Err Ledger :=
  if st.balances a t + amount < U256LIMIT then
    Except.ok { st with balances := setBal st.balances a t (st.balances a t + amount) }
  else
    Except.error Err.BalanceOverflow

/-- Modelled from the spec: `debit(account, tokenId, amount)` "fails with
`InsufficientBalance` if current balance `< amount`; otherwise decreases
balance by `amount`". -/
def debit (st : Ledger) (a t amount : Nat) : Except Err Ledger :=
  if amount ≤ st.balances a t then
    Except.ok { st with balances := setBal st.balances a t (st.balances a t - amount) }
  else
    Except.error Err.InsufficientBalance

/-- Modelled from the spec: the fixed 4-byte acceptance marker a
programmable recipient's callback must return to signal acceptance. -/
def acceptanceMagic : Nat := 0x88a7ca5c

/-- Modelled from the spec: a programmable recipient's registered callback.
It receives the current balance view (it executes synchronously against
the live ledger and may observe it), the caller identity, token type,
amount and an opaque data payload, and returns either a 4-byte value or
`none` for a call failure (revert). An account with no callback surface at
all is represented by `Option.none` at the call site. -/
structure Receiver where
  callback : (Nat → Nat → Nat) → Nat → Nat → Nat → List Nat → Option Nat

/-- Modelled from the spec: `requestAcceptance` performs the synchronous
external call; "the call must return a specific acceptance marker value to
count as `Accepted`; any other return value, any call failure, or absence
of the expected callback surface is `Rejected`". -/
def requestAcceptance (recv : Option Receiver) (bal : Nat → Nat → Nat)
    (caller tokenId amount : Nat) (data : List Nat) : Bool :=
  match recv with
  | none => false
  | some r =>
    match r.callback bal caller tokenId amount data with
    | none => false
    | some v => decide (v = acceptanceMagic)

/-- Modelled from the spec: the `ERC1238ReceiverMock` recipient of the test
suite, "set to reject tokens with id 0": its callback returns a value
other than the acceptance marker for token id 0 and the marker
otherwise. -/
def erc1238ReceiverMock : Receiver :=
  { callback := fun _ _ tokenId _ _ =>
      some (if tokenId = 0 then 0 else acceptanceMagic) }

/-- Modelled from the spec: `mintToEOA(caller, recipient, tokenId, amount,
signature, data)`.  The signature check uses `verifyMintApproval` with the
recipient as expected signer and fails with `InvalidMintSignature`; the
zero-recipient check of the credit path sits after it — the test suite
pins this order: `mintToEOA(ZERO_ADDRESS, ...)` reverts with the
invalid-signature message (and section 8 of the design document likewise
allows `InvalidMintSignature` for a zero recipient).  On success it
credits the recipient and emits `MintSingle(caller, recipient, tokenId,
amount)`. -/
def mintToEOA (st : Ledger) (caller recipient tokenId amount : Nat) (sig : Signature)
    (data : List Nat) : Except Err (Ledger × List Event) :=
  if verifyMintApproval recipient (digestSingle st.selfId recipient tokenId amount) sig then
    if recipient = 0 then
      Except.error Err.InvalidRecipient
    else
      match credit st recipient tokenId amount with
      | Except.ok st' => Except.ok (st', [Event.MintSingle caller recipient tokenId amount])
      | Except.error e => Except.error e
  else
    Except.error Err.InvalidMintSignature

/-- Internal steps of the contract-mint path, recorded in order so that
the check-then-external-call-then-effect discipline of section 5 is an
explicit property of the produced trace. -/
inductive Step where
  | callbackInvoked (recipient tokenId amount : Nat)
  | callbackReturned (accepted : Bool)
  | credited (recipient tokenId amount : Nat)
  | emitted (e : Event)

/-- Modelled from the spec: `mintToContract(caller, recipient, tokenId,
amount, data)`: reject a zero recipient; request acceptance from the
recipient's callback (which observes the pre-credit balances); if the
result is not `Accepted`, fail with `ReceiverRejected` and no state
change; only then credit the recipient and emit `MintSingle`.  The second
component is the ordered trace of internal steps. -/
def mintToContract (st : Ledger) (recv : Option Receiver)
    (caller recipient tokenId amount : Nat) (data : List Nat) :
    Except Err (Ledger × List Event) × List Step :=
  if recipient = 0 then
    (Except.error Err.InvalidRecipient, [])
  else if requestAcceptance recv st.balances caller tokenId amount data then
    match credit st recipient tokenId amount with
    | Except.ok st' =>
      (Except.ok (st', [Event.MintSingle caller recipient tokenId amount]),
       [Step.callbackInvoked recipient tokenId amount, Step.callbackReturned true,
        Step.credited recipient tokenId amount,
        Step.emitted (Event.MintSingle caller recipient tokenId amount)])
    | Except.error e =>
      (Except.error e,
       [Step.callbackInvoked recipient tokenId amount, Step.callbackReturned true])
  else
    (Except.error Err.ReceiverRejected,
     [Step.callbackInvoked recipient tokenId amount, Step.callbackReturned false])

/-- Modelled from the spec: `burn(caller, account, tokenId, amount)`:
reject a zero account, delegate recipient `debit` (propagating
`InsufficientBalance` verbatim), and on success emit `BurnSingle`. -/
def burn (st : Ledger) (caller frm tokenId amount : Nat) :
    Except Err (Ledger × List Event) :=
  if frm = 0 then
    Except.error Err.InvalidAccount
  else
    match debit st frm tokenId amount with
    | Except.ok st' => Except.ok (st', [Event.BurnSingle caller frm tokenId amount])
    | Except.error e => Except.error e

/-- Credit every `(tokenId, amount)` pair in order, stopping at the first
failure. -/
def creditAll (st : Ledger) (recipient : Nat) (pairs : List (Nat × Nat)) : Except Err Ledger :=
  match pairs with
  | [] => Except.ok st
  | (tokenId, amount) :: rest =>
    match credit st recipient tokenId amount with
    | Except.ok st' => creditAll st' recipient rest
    | Except.error e => Except.error e

/-- Debit every `(tokenId, amount)` pair in order, stopping at the first
failure. -/
def debitAll (st : Ledger) (frm : Nat) (pairs : List (Nat × Nat)) : Except Err Ledger :=
  match pairs with
  | [] => Except.ok st
  | (tokenId, amount) :: rest =>
    match debit st frm tokenId amount with
    | Except.ok st' => debitAll st' frm rest
    | Except.error e => Except.error e

/-- Modelled from the spec: the batch mint variant (present only as
disabled test scaffolding): reject a zero recipient, "fail with
`LengthMismatch` if sequence lengths differ, otherwise credit every pair
atomically (all-or-nothing) and emit one batch event with the full
sequences".  The scaffolding calls `mintBatch(recipient, ids, amounts, data)`
with no signature arguments, so no signature check appears here. -/
def mintBatch (st : Ledger) (caller recipient : Nat) (ids amounts : List Nat)
    (data : List Nat) : Except Err (Ledger × List Event) :=
  if recipient = 0 then
    Except.error Err.InvalidRecipient
  else if ids.length ≠ amounts.length then
    Except.error Err.LengthMismatch
  else
    match creditAll st recipient (ids.zip amounts) with
    | Except.ok st' => Except.ok (st', [Event.MintBatch caller recipient ids amounts])
    | Except.error e => Except.error e

/-- Modelled from the spec: `burnBatch(caller, account, tokenIds[],
amounts[])`: reject a zero account, reject on length mismatch, "otherwise
debit every pair — if any pair is insufficient, the entire batch must fail
without debiting any pair (all-or-nothing); on success emit
`BurnBatch`". -/
def burnBatch (st : Ledger) (caller frm : Nat) (ids amounts : List Nat) :
    Except Err (Ledger × List Event) :=
  if frm = 0 then
    Except.error Err.InvalidAccount
  else if ids.length ≠ amounts.length then
    Except.error Err.LengthMismatch
  else
    match debitAll st frm (ids.zip amounts) with
    | Except.ok st' => Except.ok (st', [Event.BurnBatch caller frm ids amounts])
    | Except.error e => Except.error e

/-- Modelled from the spec: `setBaseURI(newURI)` replaces the metadata
locator string; it touches no balance. -/
def setBaseURI (st : Ledger) (uri : String) : Ledger :=
  { st with baseURI := uri }

/-- One external transaction against the ledger: every mutating entry
point of section 6. -/
inductive Tx where
  | mintToEOA (caller recipient tokenId amount : Nat) (sig : Signature) (data : List Nat)
  | mintToContract (recv : Option Receiver) (caller recipient tokenId amount : Nat) (data : List Nat)
  | mintBatch (caller recipient : Nat) (ids amounts : List Nat) (data : List Nat)
  | burn (caller frm tokenId amount : Nat)
  | burnBatch (caller frm : Nat) (ids amounts : List Nat)
  | setBaseURI (uri : String)

/-- Dispatch one transaction to its entry point. -/
def execTx (st : Ledger) (tx : Tx) : Except Err (Ledger × List Event) :=
  match tx with
  | Tx.mintToEOA caller recipient tokenId amount sig data =>
    mintToEOA st caller recipient tokenId amount sig data
  | Tx.mintToContract recv caller recipient tokenId amount data =>
    (mintToContract st recv caller recipient tokenId amount data).1
  | Tx.mintBatch caller recipient ids amounts data =>
    mintBatch st caller recipient ids amounts data
  | Tx.burn caller frm tokenId amount =>
    burn st caller frm tokenId amount
  | Tx.burnBatch caller frm ids amounts =>
    burnBatch st caller frm ids amounts
  | Tx.setBaseURI uri =>
    Except.ok (setBaseURI st uri, [])

/-- Observable effect of one transaction under the whole-transaction
atomicity of section 5: a failed entry point aborts the request, leaving
the ledger as it was and emitting nothing. -/
def runTx (st : Ledger) (tx : Tx) : Ledger × List Event :=
  match execTx st tx with
  | Except.ok (st', evs) => (st', evs)
  | Except.error _ => (st, [])

/-- Observable effect of a serial sequence of transactions, with the
emitted events concatenated in order. -/
def runTxs (st : Ledger) (txs : List Tx) : Ledger × List Event :=
  match txs with
  | [] => (st, [])
  | tx :: rest =>
    ((runTxs (runTx st tx).1 rest).1, (runTx st tx).2 ++ (runTxs (runTx st tx).1 rest).2)

/-- Sum of the amounts in a `(tokenId, amount)` pair list whose token id
is `t`. -/
def sumFor (t : Nat) (pairs : List (Nat × Nat)) : Nat :=
  ((pairs.map (fun p => if t = p.1 then p.2 else 0)).sum)

/-- Amount a single event mints for the pair `(a, t)`. -/
def mintedInEvent (a t : Nat) (e : Event) : Nat :=
  match e with
  | Event.MintSingle _ recipient tokenId amount => if a = recipient ∧ t = tokenId then amount else 0
  | Event.MintBatch _ recipient ids amounts =>
    if a = recipient then sumFor t (ids.zip amounts) else 0
  | _ => 0

/-- Amount a single event burns for the pair `(a, t)`. -/
def burnedInEvent (a t : Nat) (e : Event) : Nat :=
  match e with
  | Event.BurnSingle _ frm tokenId amount => if a = frm ∧ t = tokenId then amount else 0
  | Event.BurnBatch _ frm ids amounts =>
    if a = frm then sumFor t (ids.zip amounts) else 0
  | _ => 0

/-- Total amount minted for the pair `(a, t)` across an event log. -/
def mintedFor (a t : Nat) (evs : List Event) : Nat :=
  (evs.map (mintedInEvent a t)).sum

/-- Total amount burned for the pair `(a, t)` across an event log. -/
def burnedFor (a t : Nat) (evs : List Event) : Nat :=
  (evs.map (burnedInEvent a t)).sum

/-! ## Basic lemmas about the ledger primitives -/

/-- Reading a freshly updated balance entry. -/
lemma setBal_self (b : Nat → Nat → Nat) (a t v : Nat) : setBal b a t v a t = v := by
  simp [setBal]

/-- Reading an entry not touched by the update. -/
lemma setBal_other (b : Nat → Nat → Nat) (a t v a' t' : Nat) (h : ¬(a' = a ∧ t' = t)) :
    setBal b a t v a' t' = b a' t' := by
  simp [setBal, h]

/-- A credit that stays below the 256-bit bound succeeds with the updated map. -/
lemma credit_ok (st : Ledger) (a t amount : Nat) (h : st.balances a t + amount < U256LIMIT) :
    credit st a t amount =
      Except.ok { st with balances := setBal st.balances a t (st.balances a t + amount) } := by
  unfold credit
  rw [if_pos h]

/-- Pointwise characterization of a successful credit. -/
lemma credit_ok_balances (st : Ledger) (r tid amt : Nat) (st1 : Ledger)
    (h : credit st r tid amt = Except.ok st1) :
    ∀ a t, st1.balances a t = st.balances a t + (if a = r ∧ t = tid then amt else 0) := by
  intro a t
  unfold credit at h
  split at h
  · injection h with h1
    subst h1
    by_cases hc : a = r ∧ t = tid
    · obtain ⟨ha, ht⟩ := hc
      subst ha; subst ht
      simp [setBal]
    · simp [setBal, hc]
  · exact Except.noConfusion h

/-- A debit within the available balance succeeds with the updated map. -/
lemma debit_ok (st : Ledger) (a t amount : Nat) (h : amount ≤ st.balances a t) :
    debit st a t amount =
      Except.ok { st with balances := setBal st.balances a t (st.balances a t - amount) } := by
  unfold debit
  rw [if_pos h]

/-- A debit exceeding the available balance fails with `InsufficientBalance`. -/
lemma debit_insufficient (st : Ledger) (a t amount : Nat) (h : st.balances a t < amount) :
    debit st a t amount = Except.error Err.InsufficientBalance := by
  unfold debit
  rw [if_neg (by omega)]

/-- Pointwise characterization of a successful debit; the debited amount is
recovered exactly because the sufficiency check passed. -/
lemma debit_ok_balances (st : Ledger) (r tid amt : Nat) (st1 : Ledger)
    (h : debit st r tid amt = Except.ok st1) :
    ∀ a t, st1.balances a t + (if a = r ∧ t = tid then amt else 0) = st.balances a t := by
  intro a t
  unfold debit at h
  split at h
  case isTrue hle =>
    injection h with h1
    subst h1
    by_cases hc : a = r ∧ t = tid
    · obtain ⟨ha, ht⟩ := hc
      subst ha; subst ht
      simp [setBal]
      omega
    · simp [setBal, hc]
  case isFalse => exact Except.noConfusion h

/-- Unfolding `sumFor` over a cons cell. -/
lemma sumFor_cons (t tid amt : Nat) (rest : List (Nat × Nat)) :
    sumFor t ((tid, amt) :: rest) = (if t = tid then amt else 0) + sumFor t rest := by
  simp [sumFor]

/-- Pointwise characterization of a successful sequential credit of every
pair in a list. -/
lemma creditAll_ok_balances :
    ∀ (pairs : List (Nat × Nat)) (st st' : Ledger) (r : Nat),
      creditAll st r pairs = Except.ok st' →
      ∀ a t, st'.balances a t = st.balances a t + (if a = r then sumFor t pairs else 0) := by
  intro pairs
  induction pairs with
  | nil =>
    intro st st' r h a t
    unfold creditAll at h
    injection h with h1
    subst h1
    simp [sumFor]
  | cons p rest ih =>
    intro st st' r h a t
    obtain ⟨tid, amt⟩ := p
    unfold creditAll at h
    cases hc : credit st r tid amt with
    | error e => rw [hc] at h; exact Except.noConfusion h
    | ok st1 =>
      rw [hc] at h
      have h1 := credit_ok_balances st r tid amt st1 hc a t
      have h2 := ih st1 st' r h a t
      rw [sumFor_cons]
      by_cases ha : a = r
      · subst ha
        by_cases ht : t = tid
        · subst ht
          simp at h1 h2 ⊢
          omega
        · simp [ht] at h1 h2 ⊢
          omega
      · simp [ha] at h1 h2 ⊢
        omega

/-- Pointwise characterization of a successful sequential debit of every
pair in a list. -/
lemma debitAll_ok_balances :
    ∀ (pairs : List (Nat × Nat)) (st st' : Ledger) (r : Nat),
      debitAll st r pairs = Except.ok st' →
      ∀ a t, st'.balances a t + (if a = r then sumFor t pairs else 0) = st.balances a t := by
  intro pairs
  induction pairs with
  | nil =>
    intro st st' r h a t
    unfold debitAll at h
    injection h with h1
    subst h1
    simp [sumFor]
  | cons p rest ih =>
    intro st st' r h a t
    obtain ⟨tid, amt⟩ := p
    unfold debitAll at h
    cases hd : debit st r tid amt with
    | error e => rw [hd] at h; exact Except.noConfusion h
    | ok st1 =>
      rw [hd] at h
      have h1 := debit_ok_balances st r tid amt st1 hd a t
      have h2 := ih st1 st' r h a t
      rw [sumFor_cons]
      by_cases ha : a = r
      · subst ha
        by_cases ht : t = tid
        · subst ht
          simp at h1 h2 ⊢
          omega
        · simp [ht] at h1 h2 ⊢
          omega
      · simp [ha] at h1 h2 ⊢
        omega

/-! ## Inversion lemmas for the external entry points -/

/-- A successful `mintToEOA` emits exactly one `MintSingle` with the
caller as operator and credits exactly the requested amount. -/
lemma mintToEOA_ok_inversion (st : Ledger) (caller r tid amt : Nat) (sig : Signature)
    (data : List Nat) (st' : Ledger) (evs : List Event)
    (h : mintToEOA st caller r tid amt sig data = Except.ok (st', evs)) :
    evs = [Event.MintSingle caller r tid amt] ∧
    ∀ a t, st'.balances a t = st.balances a t + (if a = r ∧ t = tid then amt else 0) := by
  unfold mintToEOA at h
  split at h
  · split at h
    · exact Except.noConfusion h
    · cases hc : credit st r tid amt with
      | ok st1 =>
        rw [hc] at h
        injection h with h1
        injection h1 with h2 h3
        subst h2; subst h3
        exact ⟨rfl, credit_ok_balances st r tid amt st1 hc⟩
      | error e => rw [hc] at h; exact Except.noConfusion h
  · exact Except.noConfusion h

/-- A successful `mintToContract` emits exactly one `MintSingle` with the
caller as operator and credits exactly the requested amount. -/
lemma mintToContract_ok_inversion (st : Ledger) (recv : Option Receiver)
    (caller r tid amt : Nat) (data : List Nat) (st' : Ledger) (evs : List Event)
    (h : (mintToContract st recv caller r tid amt data).1 = Except.ok (st', evs)) :
    evs = [Event.MintSingle caller r tid amt] ∧
    ∀ a t, st'.balances a t = st.balances a t + (if a = r ∧ t = tid then amt else 0) := by
  by_cases hr : r = 0
  · simp [mintToContract, hr] at h
  · cases hacc : requestAcceptance recv st.balances caller tid amt data with
    | false => simp [mintToContract, hr, hacc] at h
    | true =>
      cases hc : credit st r tid amt with
      | ok st1 =>
        simp [mintToContract, hr, hacc, hc] at h
        obtain ⟨h1, h2⟩ := h
        subst h1; subst h2
        exact ⟨rfl, credit_ok_balances st r tid amt st1 hc⟩
      | error e => simp [mintToContract, hr, hacc, hc] at h

/-- A successful `mintBatch` emits exactly one `MintBatch` with the full
sequences and credits every pair. -/
lemma mintBatch_ok_inversion (st : Ledger) (caller r : Nat) (ids amounts data : List Nat)
    (st' : Ledger) (evs : List Event)
    (h : mintBatch st caller r ids amounts data = Except.ok (st', evs)) :
    evs = [Event.MintBatch caller r ids amounts] ∧
    ∀ a t, st'.balances a t =
      st.balances a t + (if a = r then sumFor t (ids.zip amounts) else 0) := by
  unfold mintBatch at h
  split at h
  · exact Except.noConfusion h
  · split at h
    · exact Except.noConfusion h
    · cases hc : creditAll st r (ids.zip amounts) with
      | ok st1 =>
        rw [hc] at h
        injection h with h1
        injection h1 with h2 h3
        subst h2; subst h3
        exact ⟨rfl, creditAll_ok_balances (ids.zip amounts) st st1 r hc⟩
      | error e => rw [hc] at h; exact Except.noConfusion h

/-- A successful `burn` emits exactly one `BurnSingle` with the caller as
operator and debits exactly the requested amount. -/
lemma burn_ok_inversion (st : Ledger) (caller f tid amt : Nat)
    (st' : Ledger) (evs : List Event)
    (h : burn st caller f tid amt = Except.ok (st', evs)) :
    evs = [Event.BurnSingle caller f tid amt] ∧
    ∀ a t, st'.balances a t + (if a = f ∧ t = tid then amt else 0) = st.balances a t := by
  unfold burn at h
  split at h
  · exact Except.noConfusion h
  · cases hd : debit st f tid amt with
    | ok st1 =>
      rw [hd] at h
      injection h with h1
      injection h1 with h2 h3
      subst h2; subst h3
      exact ⟨rfl, debit_ok_balances st f tid amt st1 hd⟩
    | error e => rw [hd] at h; exact Except.noConfusion h

/-- A successful `burnBatch` emits exactly one `BurnBatch` with the full
sequences and debits every pair. -/
lemma burnBatch_ok_inversion (st : Ledger) (caller f : Nat) (ids amounts : List Nat)
    (st' : Ledger) (evs : List Event)
    (h : burnBatch st caller f ids amounts = Except.ok (st', evs)) :
    evs = [Event.BurnBatch caller f ids amounts] ∧
    ∀ a t, st'.balances a t + (if a = f then sumFor t (ids.zip amounts) else 0) =
      st.balances a t := by
  unfold burnBatch at h
  split at h
  · exact Except.noConfusion h
  · split at h
    · exact Except.noConfusion h
    · cases hd : debitAll st f (ids.zip amounts) with
      | ok st1 =>
        rw [hd] at h
        injection h with h1
        injection h1 with h2 h3
        subst h2; subst h3
        exact ⟨rfl, debitAll_ok_balances (ids.zip amounts) st st1 f hd⟩
      | error e => rw [hd] at h; exact Except.noConfusion h

/-! ## Claim theorems -/

/-- Claim C10: the metadata-locator accessors form a set/get round-trip at
the public interface: immediately after construction with base URI `b`,
`baseURI` returns `b`, and for every string `s` (including the empty
string), after `setBaseURI s` the stored `baseURI` is exactly `s`. -/
theorem baseURI_set_get_roundtrip :
    (∀ selfId b, (mkERC1238 selfId b).baseURI = b) ∧
    (∀ st s, (setBaseURI st s).baseURI = s) :=
  ⟨fun _ _ => rfl, fun _ _ => rfl⟩

/-- Claim C6: for every account and token type, `balanceOf` is zero before
any mint for that pair; after `credit(a,t,n)` followed by `debit(a,t,m)`
with `m ≤ n`, `balanceOf(a,t) = n - m`; and with `m > n` the debit fails
with `InsufficientBalance` while `balanceOf(a,t)` remains `n`. -/
theorem balance_credit_debit_arithmetic (selfId : Nat) (uri : String) (a t n m : Nat)
    (hn : n < U256LIMIT) :
    balanceOf (mkERC1238 selfId uri) a t = 0 ∧
    ∃ st1, credit (mkERC1238 selfId uri) a t n = Except.ok st1 ∧
      balanceOf st1 a t = n ∧
      (m ≤ n → ∃ st2, debit st1 a t m = Except.ok st2 ∧ balanceOf st2 a t = n - m) ∧
      (n < m → debit st1 a t m = Except.error Err.InsufficientBalance ∧
        balanceOf st1 a t = n) := by
  have h0 : (mkERC1238 selfId uri).balances a t = 0 := rfl
  have hc := credit_ok (mkERC1238 selfId uri) a t n (by rw [h0]; omega)
  rw [h0] at hc
  simp only [Nat.zero_add] at hc
  refine ⟨rfl, _, hc, ?_, ?_, ?_⟩
  · show setBal (mkERC1238 selfId uri).balances a t n a t = n
    exact setBal_self _ a t n
  · intro hm
    have hb : ({ mkERC1238 selfId uri with
        balances := setBal (mkERC1238 selfId uri).balances a t n } : Ledger).balances a t = n :=
      setBal_self _ a t n
    have hd := debit_ok _ a t m (by rw [hb]; exact hm)
    rw [hb] at hd
    exact ⟨_, hd, setBal_self _ a t (n - m)⟩
  · intro hm
    have hb : ({ mkERC1238 selfId uri with
        balances := setBal (mkERC1238 selfId uri).balances a t n } : Ledger).balances a t = n :=
      setBal_self _ a t n
    refine ⟨debit_insufficient _ a t m (by rw [hb]; exact hm), setBal_self _ a t n⟩

/-- Closed witness for claim C6 at the test suite's parameters: minting
58319 of token 11223344 and then burning 987 leaves 57332. -/
theorem balance_credit_debit_arithmetic_witness :
    58319 < U256LIMIT ∧
    (balanceOf (mkERC1238 5 "u") 2 11223344 = 0 ∧
     ∃ st1, credit (mkERC1238 5 "u") 2 11223344 58319 = Except.ok st1 ∧
       balanceOf st1 2 11223344 = 58319 ∧
       (987 ≤ 58319 → ∃ st2, debit st1 2 11223344 987 = Except.ok st2 ∧
         balanceOf st2 2 11223344 = 58319 - 987) ∧
       (58319 < 987 → debit st1 2 11223344 987 = Except.error Err.InsufficientBalance ∧
         balanceOf st1 2 11223344 = 58319)) :=
  ⟨by norm_num [U256LIMIT],
   balance_credit_debit_arithmetic 5 "u" 2 11223344 58319 987 (by norm_num [U256LIMIT])⟩

/-- Claim C2 (counterexample): with the all-zero recipient and a concrete
signature, `mintToEOA` fails with `InvalidMintSignature`, not with
`InvalidRecipient` as the claim states — signature verification can never
succeed for a zero expected signer, so it fires first, exactly as the test
suite observes ("should revert with an invalid signature" on
`ZERO_ADDRESS`). -/
theorem mintToEOA_zero_recipient_not_invalidRecipient :
    mintToEOA (mkERC1238 5 "u") 1 0 11223344 58319
      { signer := 2, signedDigest := Digest.single 5 2 11223344 58319 } [] =
      Except.error Err.InvalidMintSignature ∧
    Err.InvalidMintSignature ≠ Err.InvalidRecipient :=
  ⟨rfl, by decide⟩

/-- Claim C2 (amended): every call to `mintToEOA` with the all-zero
recipient fails — with `InvalidMintSignature`, since `verifyMintApproval`
rejects a zero expected signer before any zero-recipient check is reached
— and the ledger is unchanged. -/
theorem mintToEOA_zero_recipient_fails (st : Ledger) (caller tokenId amount : Nat)
    (sig : Signature) (data : List Nat) :
    mintToEOA st caller 0 tokenId amount sig data = Except.error Err.InvalidMintSignature ∧
    runTx st (Tx.mintToEOA caller 0 tokenId amount sig data) = (st, []) := by
  have h1 : mintToEOA st caller 0 tokenId amount sig data =
      Except.error Err.InvalidMintSignature := by
    unfold mintToEOA
    simp [verifyMintApproval]
  refine ⟨h1, ?_⟩
  unfold runTx
  simp only [execTx]
  rw [h1]

/-- Claim C1: for every tuple with a non-zero recipient and a signature
produced by the recipient over the digest of exactly
`(recipient, tokenId, amount)` bound to this ledger, `mintToEOA` succeeds,
credits exactly `amount` to `(recipient, tokenId)`, leaves every other
balance unchanged, and emits exactly one `MintSingle` whose operator is
the original caller. -/
theorem mintToEOA_valid_signature_credits (st : Ledger)
    (caller recipient tokenId amount : Nat) (sig : Signature) (data : List Nat)
    (hr : recipient ≠ 0)
    (hsigner : sig.signer = recipient)
    (hdigest : sig.signedDigest = digestSingle st.selfId recipient tokenId amount)
    (hroom : balanceOf st recipient tokenId + amount < U256LIMIT) :
    ∃ st', mintToEOA st caller recipient tokenId amount sig data =
        Except.ok (st', [Event.MintSingle caller recipient tokenId amount]) ∧
      balanceOf st' recipient tokenId = balanceOf st recipient tokenId + amount ∧
      ∀ a t, ¬(a = recipient ∧ t = tokenId) → balanceOf st' a t = balanceOf st a t := by
  have hv : verifyMintApproval recipient
      (digestSingle st.selfId recipient tokenId amount) sig = true := by
    simp [verifyMintApproval, recoverSigner, hdigest, hsigner, hr]
  have hc := credit_ok st recipient tokenId amount hroom
  refine ⟨{ st with balances := setBal st.balances recipient tokenId (st.balances recipient tokenId + amount) }, ?_, ?_, ?_⟩
  · simp [mintToEOA, hv, hr, hc]
  · exact setBal_self _ _ _ _
  · intro a t hne
    exact setBal_other _ _ _ _ _ _ hne

/-- Closed witness for claim C1 at the test suite's parameters
(token id 11223344, amount 58319), with the recipient's own signature
over exactly those parameters. -/
theorem mintToEOA_valid_signature_credits_witness :
    ∃ st', mintToEOA (mkERC1238 5 "u") 1 2 11223344 58319
        { signer := 2, signedDigest := digestSingle 5 2 11223344 58319 } [] =
        Except.ok (st', [Event.MintSingle 1 2 11223344 58319]) ∧
      balanceOf st' 2 11223344 = balanceOf (mkERC1238 5 "u") 2 11223344 + 58319 ∧
      ∀ a t, ¬(a = 2 ∧ t = 11223344) → balanceOf st' a t = balanceOf (mkERC1238 5 "u") a t :=
  mintToEOA_valid_signature_credits (mkERC1238 5 "u") 1 2 11223344 58319
    { signer := 2, signedDigest := digestSingle 5 2 11223344 58319 } []
    (by decide) rfl rfl (by norm_num [balanceOf, mkERC1238, U256LIMIT])

/-- Claim C3: for every call to `mintToEOA` with a non-zero recipient
whose signature was not produced by the recipient over the digest of
exactly `(recipient, tokenId, amount)`, the operation fails with
`InvalidMintSignature` and the ledger is unchanged. -/
theorem mintToEOA_invalid_signature_rejected (st : Ledger)
    (caller recipient tokenId amount : Nat) (sig : Signature) (data : List Nat)
    (hr : recipient ≠ 0)
    (hbad : ¬(sig.signer = recipient ∧
      sig.signedDigest = digestSingle st.selfId recipient tokenId amount)) :
    mintToEOA st caller recipient tokenId amount sig data =
      Except.error Err.InvalidMintSignature ∧
    runTx st (Tx.mintToEOA caller recipient tokenId amount sig data) = (st, []) := by
  have hv : verifyMintApproval recipient
      (digestSingle st.selfId recipient tokenId amount) sig = false := by
    unfold verifyMintApproval recoverSigner
    by_cases hd : sig.signedDigest = digestSingle st.selfId recipient tokenId amount
    · have hs : sig.signer ≠ recipient := fun hs => hbad ⟨hs, hd⟩
      simp [hd, hs]
    · have h0 : (0 : Nat) ≠ recipient := fun h0 => hr h0.symm
      simp [hd, h0]
  have h1 : mintToEOA st caller recipient tokenId amount sig data =
      Except.error Err.InvalidMintSignature := by
    unfold mintToEOA
    rw [hv]
    simp
  refine ⟨h1, ?_⟩
  unfold runTx
  simp only [execTx]
  rw [h1]

/-- Closed witness for claim C3: a signature by a third account over the
correct digest is rejected and the ledger stays at its initial state. -/
theorem mintToEOA_invalid_signature_rejected_witness :
    mintToEOA (mkERC1238 5 "u") 1 2 11223344 58319
      { signer := 3, signedDigest := digestSingle 5 2 11223344 58319 } [] =
      Except.error Err.InvalidMintSignature ∧
    runTx (mkERC1238 5 "u") (Tx.mintToEOA 1 2 11223344 58319
      { signer := 3, signedDigest := digestSingle 5 2 11223344 58319 } []) =
      (mkERC1238 5 "u", []) :=
  mintToEOA_invalid_signature_rejected (mkERC1238 5 "u") 1 2 11223344 58319
    { signer := 3, signedDigest := digestSingle 5 2 11223344 58319 } []
    (by decide) (by decide)

/-- Claim C4: for a non-zero programmable recipient, `mintToContract`
credits exactly `amount` when the acceptance callback returns the marker,
and fails with `ReceiverRejected` with the ledger unchanged when the
callback returns anything else or reverts; a recipient with no callback
surface and the mock recipient called with token id 0 both fall in the
rejected class. -/
theorem mintToContract_acceptance_protocol :
    (∀ st recv caller recipient tokenId amount data, recipient ≠ 0 →
       requestAcceptance recv st.balances caller tokenId amount data = true →
       balanceOf st recipient tokenId + amount < U256LIMIT →
       ∃ st', (mintToContract st recv caller recipient tokenId amount data).1 =
           Except.ok (st', [Event.MintSingle caller recipient tokenId amount]) ∧
         balanceOf st' recipient tokenId = balanceOf st recipient tokenId + amount ∧
         ∀ a t, ¬(a = recipient ∧ t = tokenId) → balanceOf st' a t = balanceOf st a t) ∧
    (∀ st recv caller recipient tokenId amount data, recipient ≠ 0 →
       requestAcceptance recv st.balances caller tokenId amount data = false →
       (mintToContract st recv caller recipient tokenId amount data).1 =
         Except.error Err.ReceiverRejected ∧
       runTx st (Tx.mintToContract recv caller recipient tokenId amount data) = (st, [])) ∧
    (∀ bal caller amount data,
       requestAcceptance (some erc1238ReceiverMock) bal caller 0 amount data = false) ∧
    (∀ bal caller tokenId amount data,
       requestAcceptance none bal caller tokenId amount data = false) := by
  refine ⟨?_, ?_, ?_, ?_⟩
  · intro st recv caller recipient tokenId amount data hr hacc hroom
    have hc := credit_ok st recipient tokenId amount hroom
    refine ⟨{ st with balances := setBal st.balances recipient tokenId (st.balances recipient tokenId + amount) }, ?_, ?_, ?_⟩
    · simp [mintToContract, hr, hacc, hc]
    · exact setBal_self _ _ _ _
    · intro a t hne
      exact setBal_other _ _ _ _ _ _ hne
  · intro st recv caller recipient tokenId amount data hr hacc
    have h1 : (mintToContract st recv caller recipient tokenId amount data).1 =
        Except.error Err.ReceiverRejected := by
      simp [mintToContract, hr, hacc]
    refine ⟨h1, ?_⟩
    unfold runTx
    simp only [execTx]
    rw [h1]
  · intro bal caller amount data
    rfl
  · intro bal caller tokenId amount data
    rfl

/-- Closed witness for claim C4: the mock recipient accepts token id
11223344 and the mint credits 58319 from a fresh ledger. -/
theorem mintToContract_acceptance_protocol_witness :
    ∃ st', (mintToContract (mkERC1238 5 "u") (some erc1238ReceiverMock)
        1 2 11223344 58319 []).1 =
        Except.ok (st', [Event.MintSingle 1 2 11223344 58319]) ∧
      balanceOf st' 2 11223344 = balanceOf (mkERC1238 5 "u") 2 11223344 + 58319 ∧
      ∀ a t, ¬(a = 2 ∧ t = 11223344) → balanceOf st' a t = balanceOf (mkERC1238 5 "u") a t :=
  mintToContract_acceptance_protocol.1 (mkERC1238 5 "u") (some erc1238ReceiverMock)
    1 2 11223344 58319 [] (by decide) (by decide)
    (by norm_num [balanceOf, mkERC1238, U256LIMIT])

/-- Claim C5: in the contract-mint path the balance credit occurs strictly
after the acceptance callback has returned `Accepted`: in the ordered step
trace of `mintToContract`, every `credited` step is strictly preceded by a
`callbackReturned true` step, and when the operation fails with
`ReceiverRejected` no `credited` step appears at all — so a reentrant call
issued from inside the callback can never observe the not-yet-finalized
credit. -/
theorem mintToContract_credit_strictly_after_acceptance
    (st : Ledger) (recv : Option Receiver)
    (caller recipient tokenId amount : Nat) (data : List Nat) :
    (∀ i r' t' a',
      (mintToContract st recv caller recipient tokenId amount data).2.get? i =
        some (Step.credited r' t' a') →
      ∃ j, j < i ∧
        (mintToContract st recv caller recipient tokenId amount data).2.get? j =
          some (Step.callbackReturned true)) ∧
    ((mintToContract st recv caller recipient tokenId amount data).1 =
        Except.error Err.ReceiverRejected →
      ∀ r' t' a', Step.credited r' t' a' ∉
        (mintToContract st recv caller recipient tokenId amount data).2) := by
  by_cases hr : recipient = 0
  · refine ⟨?_, ?_⟩
    · intro i r' t' a' h
      simp [mintToContract, hr] at h
    · intro _ r' t' a'
      simp [mintToContract, hr]
  · cases hacc : requestAcceptance recv st.balances caller tokenId amount data with
    | false =>
      refine ⟨?_, ?_⟩
      · intro i r' t' a' h
        rcases i with _ | _ | i <;> simp [mintToContract, hr, hacc] at h
      · intro _ r' t' a'
        simp [mintToContract, hr, hacc]
    | true =>
      cases hc : credit st recipient tokenId amount with
      | ok st1 =>
        refine ⟨?_, ?_⟩
        · intro i r' t' a' h
          rcases i with _ | _ | _ | _ | i
          · simp [mintToContract, hr, hacc, hc] at h
          · simp [mintToContract, hr, hacc, hc] at h
          · exact ⟨1, by omega, by simp [mintToContract, hr, hacc, hc]⟩
          · simp [mintToContract, hr, hacc, hc] at h
          · simp [mintToContract, hr, hacc, hc] at h
        · intro herr r' t' a'
          simp [mintToContract, hr, hacc, hc] at herr
      | error e =>
        refine ⟨?_, ?_⟩
        · intro i r' t' a' h
          rcases i with _ | _ | i <;> simp [mintToContract, hr, hacc, hc] at h
        · intro _ r' t' a'
          simp [mintToContract, hr, hacc, hc]

/-- Closed witness for claim C5: in a concrete accepted mint, the credit
step sits at index 2 of the trace and a `callbackReturned true` step
precedes it. -/
theorem mintToContract_credit_strictly_after_acceptance_witness :
    ∃ j, j < 2 ∧
      (mintToContract (mkERC1238 5 "u") (some erc1238ReceiverMock) 1 2 5 7 []).2.get? j =
        some (Step.callbackReturned true) :=
  (mintToContract_credit_strictly_after_acceptance (mkERC1238 5 "u")
    (some erc1238ReceiverMock) 1 2 5 7 []).1 2 2 5 7 (by rfl)

/-- Claim C7: batch mint and batch burn are all-or-nothing: a length
mismatch fails with `LengthMismatch`; any failure leaves the observable
ledger untouched (no pair credited or debited); and a success applies
every pair — the final balance of each `(account, token)` differs from the
initial one by exactly the summed amounts of the matching pairs. -/
theorem batch_operations_all_or_nothing :
    (∀ st caller recipient ids amounts data, recipient ≠ 0 →
       ids.length ≠ amounts.length →
       mintBatch st caller recipient ids amounts data = Except.error Err.LengthMismatch) ∧
    (∀ st caller frm ids amounts, frm ≠ 0 →
       ids.length ≠ amounts.length →
       burnBatch st caller frm ids amounts = Except.error Err.LengthMismatch) ∧
    (∀ st caller recipient ids amounts data e,
       mintBatch st caller recipient ids amounts data = Except.error e →
       runTx st (Tx.mintBatch caller recipient ids amounts data) = (st, [])) ∧
    (∀ st caller frm ids amounts e,
       burnBatch st caller frm ids amounts = Except.error e →
       runTx st (Tx.burnBatch caller frm ids amounts) = (st, [])) ∧
    (∀ st caller recipient ids amounts data st' evs,
       mintBatch st caller recipient ids amounts data = Except.ok (st', evs) →
       ∀ a t, balanceOf st' a t =
         balanceOf st a t + (if a = recipient then sumFor t (ids.zip amounts) else 0)) ∧
    (∀ st caller frm ids amounts st' evs,
       burnBatch st caller frm ids amounts = Except.ok (st', evs) →
       ∀ a t, balanceOf st' a t + (if a = frm then sumFor t (ids.zip amounts) else 0) =
         balanceOf st a t) := by
  refine ⟨?_, ?_, ?_, ?_, ?_, ?_⟩
  · intro st caller recipient ids amounts data hr hlen
    simp [mintBatch, hr, hlen]
  · intro st caller frm ids amounts hf hlen
    simp [burnBatch, hf, hlen]
  · intro st caller recipient ids amounts data e h
    unfold runTx
    simp only [execTx]
    rw [h]
  · intro st caller frm ids amounts e h
    unfold runTx
    simp only [execTx]
    rw [h]
  · intro st caller recipient ids amounts data st' evs h
    exact (mintBatch_ok_inversion st caller recipient ids amounts data st' evs h).2
  · intro st caller frm ids amounts st' evs h
    exact (burnBatch_ok_inversion st caller frm ids amounts st' evs h).2

/-- Closed witness for claim C7 at the test suite's batch parameters: two
token ids against three amounts fail with `LengthMismatch`. -/
theorem batch_operations_all_or_nothing_witness :
    burnBatch (mkERC1238 5 "u") 1 2 [2010, 2020] [5000, 9001, 195] =
      Except.error Err.LengthMismatch :=
  batch_operations_all_or_nothing.2.1 (mkERC1238 5 "u") 1 2 [2010, 2020]
    [5000, 9001, 195] (by decide) (by decide)

/-- Claim C8: for every external entry point and every input on which the
operation fails, the observable ledger state after the failed transaction
is identical to the state before it and no event is emitted. -/
theorem failed_tx_leaves_ledger_unchanged (st : Ledger) (tx : Tx) (e : Err)
    (h : execTx st tx = Except.error e) :
    runTx st tx = (st, []) := by
  unfold runTx
  rw [h]

/-- Closed witness for claim C8: a burn from the zero account fails and
the ledger is returned untouched. -/
theorem failed_tx_leaves_ledger_unchanged_witness :
    runTx (mkERC1238 5 "u") (Tx.burn 1 0 2 3) = (mkERC1238 5 "u", []) :=
  failed_tx_leaves_ledger_unchanged (mkERC1238 5 "u") (Tx.burn 1 0 2 3)
    Err.InvalidAccount rfl

/-- Helper: a successful transaction's observable effect. -/
lemma runTx_ok_eq (st : Ledger) (tx : Tx) (st' : Ledger) (evs : List Event)
    (h : execTx st tx = Except.ok (st', evs)) : runTx st tx = (st', evs) := by
  unfold runTx
  rw [h]

/-- Helper: a failed transaction's observable effect. -/
lemma runTx_error_eq (st : Ledger) (tx : Tx) (e : Err)
    (h : execTx st tx = Except.error e) : runTx st tx = (st, []) := by
  unfold runTx
  rw [h]

/-- Minted totals distribute over event-log concatenation. -/
lemma mintedFor_append (a t : Nat) (l l' : List Event) :
    mintedFor a t (l ++ l') = mintedFor a t l + mintedFor a t l' := by
  simp [mintedFor]

/-- Burned totals distribute over event-log concatenation. -/
lemma burnedFor_append (a t : Nat) (l l' : List Event) :
    burnedFor a t (l ++ l') = burnedFor a t l + burnedFor a t l' := by
  simp [burnedFor]

/-- One-transaction conservation: the balance change of any pair equals
the minted minus burned amounts recorded by the transaction's events. -/
lemma runTx_conservation (st : Ledger) (tx : Tx) (a t : Nat) :
    (runTx st tx).1.balances a t + burnedFor a t (runTx st tx).2 =
    st.balances a t + mintedFor a t (runTx st tx).2 := by
  cases hex : execTx st tx with
  | error e =>
    rw [runTx_error_eq st tx e hex]
    simp [burnedFor, mintedFor]
  | ok out =>
    obtain ⟨st', evs⟩ := out
    rw [runTx_ok_eq st tx st' evs hex]
    cases tx with
    | mintToEOA caller r tid amt sig d =>
      simp only [execTx] at hex
      obtain ⟨hev, hbal⟩ := mintToEOA_ok_inversion st caller r tid amt sig d st' evs hex
      subst hev
      rw [hbal a t]
      simp [mintedFor, burnedFor, mintedInEvent, burnedInEvent]
    | mintToContract recv caller r tid amt d =>
      simp only [execTx] at hex
      obtain ⟨hev, hbal⟩ := mintToContract_ok_inversion st recv caller r tid amt d st' evs hex
      subst hev
      rw [hbal a t]
      simp [mintedFor, burnedFor, mintedInEvent, burnedInEvent]
    | mintBatch caller r ids amounts d =>
      simp only [execTx] at hex
      obtain ⟨hev, hbal⟩ := mintBatch_ok_inversion st caller r ids amounts d st' evs hex
      subst hev
      rw [hbal a t]
      simp [mintedFor, burnedFor, mintedInEvent, burnedInEvent]
    | burn caller f tid amt =>
      simp only [execTx] at hex
      obtain ⟨hev, hbal⟩ := burn_ok_inversion st caller f tid amt st' evs hex
      subst hev
      have hb := hbal a t
      simp [burnedFor, burnedInEvent, mintedFor, mintedInEvent]
      omega
    | burnBatch caller f ids amounts =>
      simp only [execTx] at hex
      obtain ⟨hev, hbal⟩ := burnBatch_ok_inversion st caller f ids amounts st' evs hex
      subst hev
      have hb := hbal a t
      simp [burnedFor, burnedInEvent, mintedFor, mintedInEvent]
      omega
    | setBaseURI uri =>
      simp only [execTx] at hex
      injection hex with h1
      injection h1 with h2 h3
      subst h2
      subst h3
      simp [setBaseURI, mintedFor, burnedFor]

/-- Conservation along any serial transaction sequence, from any starting
ledger. -/
lemma runTxs_conservation :
    ∀ (txs : List Tx) (st : Ledger) (a t : Nat),
      (runTxs st txs).1.balances a t + burnedFor a t (runTxs st txs).2 =
      st.balances a t + mintedFor a t (runTxs st txs).2 := by
  intro txs
  induction txs with
  | nil =>
    intro st a t
    simp [runTxs, mintedFor, burnedFor]
  | cons tx rest ih =>
    intro st a t
    have h1 := runTx_conservation st tx a t
    have h2 := ih (runTx st tx).1 a t
    simp only [runTxs]
    rw [burnedFor_append, mintedFor_append]
    omega

/-- Claim C9: for every account and token id, along every serial sequence
of external transactions from a fresh ledger, the total amount minted for
that pair minus the total amount burned for it equals the stored balance
exactly (stated additively: balance + burned = minted). -/
theorem mint_burn_conservation (selfId : Nat) (uri : String) (txs : List Tx) (a t : Nat) :
    balanceOf (runTxs (mkERC1238 selfId uri) txs).1 a t +
      burnedFor a t (runTxs (mkERC1238 selfId uri) txs).2 =
    mintedFor a t (runTxs (mkERC1238 selfId uri) txs).2 := by
  have h := runTxs_conservation txs (mkERC1238 selfId uri) a t
  simpa [balanceOf, mkERC1238] using h
